import Mathlib

/-!
# Verification of the NBP2_Relata Flask application (src/app.py)

Shallow embedding of the response-shaping logic of `app.py`:

* the article-graph endpoint `get_article_graph` (route `/api/graph/<article_id>`),
* the article-content endpoint `get_article_content` (route `/api/article/<article_id>`),
* the index-page grouping logic `index` (route `/`),
* the error decorator `handle_neo4j_exceptions`.

The graph store (Neo4j) is modelled as a property graph of nodes and directed,
typed relationships whose properties are string-valued maps.  The two Cypher
queries of the API endpoints are embedded as executable functions on that
store; the dictionary-shaping loops are embedded as folds that mirror the
Python statement for statement.
-/

namespace Relata

/-- A property bag: an association list from property keys to values, mirroring
the Python property dictionaries on Neo4j nodes and relationships. -/
abbrev Props := List (String × String)

/-- Python `d.get(k)` on a property bag: the first binding of `k`, if any. -/
def getProp (props : Props) (k : String) : Option String :=
  (props.find? (fun p => p.1 == k)).map (fun p => p.2)

/-- A node of the graph store: a Neo4j node with its element id, its list of
labels (Python iterates `node.labels`; we keep the iteration order as a list)
and its properties. -/
structure StoreNode where
  elementId : String
  labels : List String
  props : Props
deriving DecidableEq, Repr

/-- A relationship of the graph store: a directed, typed edge between two
nodes (referenced by element id), carrying properties. -/
structure StoreRel where
  relType : String
  fromId : String
  toId : String
  props : Props
deriving DecidableEq, Repr

/-- The graph store: the collection of nodes and relationships the Cypher
queries run against. -/
structure Store where
  nodes : List StoreNode
  rels : List StoreRel
deriving DecidableEq, Repr

/-- Looking a node up by element id (element ids are unique in a store; we
take the first match). -/
def nodeById (store : Store) (id : String) : Option StoreNode :=
  store.nodes.find? (fun n => n.elementId == id)

/-! ## The two-hop graph query

```
MATCH (a:Article)-[r]->(connected)
WHERE elementId(a) = $article_id
OPTIONAL MATCH (connected)-[r2]->(other_connected)
WHERE r2.article = a.title
RETURN r, connected, r2, other_connected
```

Every result row binds `r` and `connected` (required MATCH); `r2` and
`other_connected` are null together or bound together (OPTIONAL MATCH). -/

/-- One result row of the graph query.  `r` and `connected` are always bound;
the optional second hop binds the pair `(r2, other_connected)` when present. -/
structure QueryRow where
  r : StoreRel
  connected : StoreNode
  second : Option (StoreRel × StoreNode)
deriving DecidableEq, Repr

/-- The `WHERE r2.article = a.title` filter of the optional second hop: in the
query language, the equality holds only when both sides are non-null and
equal. -/
def secondHopMatches (anchor : StoreNode) (r2 : StoreRel) : Bool :=
  match getProp r2.props "article", getProp anchor.props "title" with
  | some x, some y => x == y
  | _, _ => false

/-- The rows the optional second hop contributes for a given first-hop node
`connected`: every relationship leaving `connected` whose `article` property
equals the anchor's title, paired with its target node. -/
def secondHops (store : Store) (anchor connected : StoreNode) :
    List (StoreRel × StoreNode) :=
  (store.rels.filter
      (fun r2 => r2.fromId == connected.elementId && secondHopMatches anchor r2)).filterMap
    (fun r2 => (nodeById store r2.toId).map (fun other => (r2, other)))

/-- All result rows of the two-hop graph query for a given article id: for
every relationship leaving the anchor Article, one row per qualifying second
hop, or a single row with a null second hop when none qualifies (OPTIONAL
MATCH semantics). -/
def runGraphQuery (store : Store) (articleId : String) : List QueryRow :=
  match store.nodes.find?
      (fun a => a.elementId == articleId && a.labels.contains "Article") with
  | none => []
  | some a =>
    (store.rels.filter (fun r => r.fromId == a.elementId)).flatMap
      (fun r =>
        match nodeById store r.toId with
        | none => []
        | some connected =>
          match secondHops store a connected with
          | [] => [⟨r, connected, none⟩]
          | pairs => pairs.map (fun p => ⟨r, connected, some p⟩))

/-! ## The response shaper of `get_article_graph` (app.py lines 146-196) -/

/-- A shaped node of the JSON graph response: `{id, label, group, properties}`.
-/
structure ShapedNode where
  id : String
  label : String
  group : String
  properties : Props
deriving DecidableEq, Repr

/-- A shaped edge of the JSON graph response: `{from, to, label, properties}`
(the JSON keys `from`/`to` are spelled `efrom`/`eto` because `from` is a Lean
keyword). -/
structure ShapedEdge where
  efrom : String
  eto : String
  label : String
  properties : Props
deriving DecidableEq, Repr

/-- Python `s.lower()`, modelled character-wise (the two agree on the ASCII
label and group names the claims are about). -/
def strToLower (s : String) : String :=
  String.mk (s.data.map Char.toLower)

/-- Shaping of a first-hop node (app.py lines 156-162):
`node_type = next(iter(connected.labels), "Entity").lower()` and the label is
`connected.get("name", connected.get("title", f"{node_type} {connected.element_id}"))`.
-/
def shapeFirstHopNode (n : StoreNode) : ShapedNode :=
  let nodeType := strToLower (n.labels.head?.getD "Entity")
  { id := n.elementId
    label := (getProp n.props "name").getD
      ((getProp n.props "title").getD (nodeType ++ " " ++ n.elementId))
    group := nodeType
    properties := n.props }

/-- Shaping of a second-hop node (app.py lines 178-183): the fallback label is
`f"{connected2.element_id}"` — the bare element id, with no type prefix. -/
def shapeSecondHopNode (n : StoreNode) : ShapedNode :=
  { id := n.elementId
    label := (getProp n.props "name").getD
      ((getProp n.props "title").getD n.elementId)
    group := strToLower (n.labels.head?.getD "Entity")
    properties := n.props }

/-- The first-hop edge of a row (app.py lines 168-173): both `from` and `to`
are `connected.element_id`. -/
def mkFirstHopEdge (row : QueryRow) : ShapedEdge :=
  { efrom := row.connected.elementId
    eto := row.connected.elementId
    label := row.r.relType
    properties := row.r.props }

/-- The second-hop edge (app.py lines 187-192): from `connected` to
`other_connected`, labelled with the second relationship's type. -/
def mkSecondHopEdge (connected : StoreNode) (r2 : StoreRel) (other : StoreNode) :
    ShapedEdge :=
  { efrom := connected.elementId
    eto := other.elementId
    label := r2.relType
    properties := r2.props }

/-- The loop state of the shaping loop: the `nodes` and `edges` output lists
and the `node_ids` deduplication set (modelled as a list of ids). -/
structure GraphAcc where
  nodes : List ShapedNode
  edges : List ShapedEdge
  nodeIds : List String
deriving DecidableEq, Repr

/-- Python truth-testing of a bound graph node: in the driver, `Node` extends
`Mapping`, so `if node:` falls back to `__len__`, the property count — a
bound node is truthy exactly when it has at least one property. -/
def nodeTruthy (n : StoreNode) : Bool :=
  !n.props.isEmpty

/-- App.py lines 154-163: `if connected and connected.element_id not in
node_ids:` add `connected` as a shaped node.  The query's required MATCH
guarantees `connected` is bound, so `if connected` is its truth test: a
property-less node fails it and is skipped. -/
def addFirstNode (acc : GraphAcc) (row : QueryRow) : GraphAcc :=
  if nodeTruthy row.connected && !(acc.nodeIds.contains row.connected.elementId) then
    { nodes := acc.nodes ++ [shapeFirstHopNode row.connected]
      edges := acc.edges
      nodeIds := row.connected.elementId :: acc.nodeIds }
  else acc

/-- App.py lines 166-173: `if rel.type and connected:` append the first-hop
edge — a relationship's type is a string (truthy when non-empty) and
`connected` must pass its truth test (have at least one property). -/
def addFirstEdge (acc : GraphAcc) (row : QueryRow) : GraphAcc :=
  if row.r.relType != "" && nodeTruthy row.connected then
    { nodes := acc.nodes
      edges := acc.edges ++ [mkFirstHopEdge row]
      nodeIds := acc.nodeIds }
  else acc

/-- App.py lines 176-184: `if connected2 and connected2.element_id not in
node_ids:` add `other_connected` as a shaped node — again a truth test, so a
property-less second-hop node is skipped. -/
def addSecondNode (acc : GraphAcc) (row : QueryRow) : GraphAcc :=
  match row.second with
  | none => acc
  | some (_, other) =>
    if nodeTruthy other && !(acc.nodeIds.contains other.elementId) then
      { nodes := acc.nodes ++ [shapeSecondHopNode other]
        edges := acc.edges
        nodeIds := other.elementId :: acc.nodeIds }
    else acc

/-- App.py lines 186-192: `if record["r2"]:` append the second-hop edge.  A
bound `r2` always passes its truth test: the OPTIONAL MATCH's
`WHERE r2.article = a.title` admits only relationships carrying the
`article` property, so a bound `r2` has at least one property. -/
def addSecondEdge (acc : GraphAcc) (row : QueryRow) : GraphAcc :=
  match row.second with
  | none => acc
  | some (r2, other) =>
    { nodes := acc.nodes
      edges := acc.edges ++ [mkSecondHopEdge row.connected r2 other]
      nodeIds := acc.nodeIds }

/-- One iteration of the shaping loop (app.py lines 152-192), in the source's
statement order: first-hop node, first-hop edge, second-hop node, second-hop
edge. -/
def processRow (acc : GraphAcc) (row : QueryRow) : GraphAcc :=
  addSecondEdge (addSecondNode (addFirstEdge (addFirstNode acc row) row) row) row

/-- The whole shaping loop of `get_article_graph`: fold `processRow` over the
result rows starting from empty `nodes`, `edges` and `node_ids`. -/
def shapeArticleGraph (rows : List QueryRow) : GraphAcc :=
  rows.foldl processRow ⟨[], [], []⟩

/-! ## HTTP endpoints -/

/-- A JSON response body. -/
inductive Body where
  | err (msg : String)
  | graph (nodes : List ShapedNode) (edges : List ShapedEdge)
  | article (fields : List (String × String))
deriving DecidableEq, Repr

/-- An HTTP response: status code and JSON body. -/
structure Response where
  status : Nat
  body : Body
deriving DecidableEq, Repr

/-- The outcome of opening a session and running a query against the store: a
raised store error (any Neo4j exception), or the store to query. -/
abbrev StoreConn := Except String Store

/-- The endpoint `get_article_graph` (app.py lines 130-196), wrapped in
`handle_neo4j_exceptions`: validate the id, then query and shape; a store
error raised inside is caught and becomes a 500 with a constant body. -/
def getArticleGraph (conn : StoreConn) (articleId : String) : Response :=
  if articleId == "" then ⟨400, .err "Invalid article ID"⟩
  else
    match conn with
    | .error _ => ⟨500, .err "Database error occurred"⟩
    | .ok store =>
      let g := shapeArticleGraph (runGraphQuery store articleId)
      ⟨200, .graph g.nodes g.edges⟩

/-- `toInteger($article_id)` of the content query: integer parse, null on
failure. -/
def cypherToInteger (s : String) : Option Int := s.toInt?

/-- The second disjunct `elementId(a) = toInteger($article_id)` compares the
string `elementId(a)` with an integer (or null); in the query language a
comparison between values of different types (or with null) is never true. -/
def stringIntEq (_ : String) (_ : Option Int) : Bool := false

/-- The WHERE clause of the content query:
`elementId(a) = $article_id OR elementId(a) = toInteger($article_id)`. -/
def matchesArticleId (a : StoreNode) (articleId : String) : Bool :=
  a.elementId == articleId || stringIntEq a.elementId (cypherToInteger articleId)

/-- `result.single()` of the driver: the first record if any, else none. -/
def singleRecord (records : List StoreNode) : Option StoreNode :=
  records.head?

/-- The article JSON of the content endpoint (app.py lines 217-228). -/
def shapeArticleContent (article : StoreNode) : List (String × String) :=
  [("id", article.elementId),
   ("title", (getProp article.props "title").getD ("Article " ++ article.elementId)),
   ("date", (getProp article.props "date").getD ""),
   ("readTime", (getProp article.props "read_time").getD ""),
   ("content", (getProp article.props "text").getD "Sadržaj članka nije dostupan."),
   ("source", (getProp article.props "source").getD ""),
   ("bias", (getProp article.props "bias").getD "#"),
   ("url", (getProp article.props "url").getD "#"),
   ("factCheck", (getProp article.props "fact_check").getD "Nema dostupne informacije o proveri činjenica."),
   ("tone", (getProp article.props "tone").getD "Nema dostupne analize tona.")]

/-- The endpoint `get_article_content` (app.py lines 199-228), wrapped in
`handle_neo4j_exceptions`: validate the id, run the single-article query,
404 when no record matches, else the shaped article. -/
def getArticleContent (conn : StoreConn) (articleId : String) : Response :=
  if articleId == "" then ⟨400, .err "Invalid article ID"⟩
  else
    match conn with
    | .error _ => ⟨500, .err "Database error occurred"⟩
    | .ok store =>
      match singleRecord
          (store.nodes.filter
            (fun a => a.labels.contains "Article" && matchesArticleId a articleId)) with
      | none => ⟨404, .err "Article not found"⟩
      | some article => ⟨200, .article (shapeArticleContent article)⟩

/-! ## The index page grouping (app.py lines 69-123) -/

/-- One record of the index query
`MATCH (a:Article) WITH a.bias AS bias, a.source AS source, collect(a) AS articles`:
the (possibly null) bias and source values and the articles of the group. -/
structure IndexRecord where
  bias : Option String
  source : Option String
  articles : List StoreNode
deriving DecidableEq, Repr

/-- Python `x or default` on a nullable string: the default when `x` is null
or the empty string (both falsy), else `x` itself. -/
def pyOrStr (x : Option String) (default : String) : String :=
  match x with
  | none => default
  | some s => if s == "" then default else s

/-- One shaped article of the index page (app.py lines 90-99). -/
def shapeIndexArticle (bias source : String) (a : StoreNode) : List (String × String) :=
  [("id", a.elementId),
   ("title", (getProp a.props "title").getD ("Article " ++ a.elementId)),
   ("source", source),
   ("bias", bias),
   ("url", (getProp a.props "url").getD "#"),
   ("content", (getProp a.props "content").getD "<p>Sadržaj članka nije dostupan.</p>"),
   ("date", (getProp a.props "date").getD ""),
   ("read_time", (getProp a.props "read_time").getD "")]

/-- Lookup in an insertion-ordered dictionary modelled as an association
list (the first binding of the key). -/
def assocFind (m : List (String × α)) (k : String) : Option α :=
  (m.find? (fun p => p.1 == k)).map (fun p => p.2)

/-- Python dict assignment `m[k] = v` on an insertion-ordered dictionary: an
existing key keeps its position and gets the new value; a new key is appended
at the end. -/
def assocSet (m : List (String × α)) (k : String) (v : α) : List (String × α) :=
  match m with
  | [] => [(k, v)]
  | (k₁, v₁) :: rest =>
    if k₁ == k then (k, v) :: rest else (k₁, v₁) :: assocSet rest k v

/-- The nested dictionary `{bias: {source: [articles]}}` built by the loop of
app.py lines 84-104. -/
abbrev BiasGroups := List (String × List (String × List (List (String × String))))

/-- One iteration of the grouping loop (app.py lines 84-104): resolve the
bias and source labels with their Serbian fallbacks, shape the articles, and
store them under `bias_groups[bias][source]`. -/
def indexStep (acc : BiasGroups) (rec : IndexRecord) : BiasGroups :=
  let bias := pyOrStr rec.bias "Nepoznat bias"
  let source := pyOrStr rec.source "Nepoznat izvor"
  let articles := rec.articles.map (shapeIndexArticle bias source)
  let inner := (assocFind acc bias).getD []
  assocSet acc bias (assocSet inner source articles)

/-- The nested grouping of all index records. -/
def buildBiasGroups (records : List IndexRecord) : BiasGroups :=
  records.foldl indexStep []

/-- The slug identifier of a group (app.py lines 112 and 118):
`name.lower().replace(" ", "-")` — with a single-character pattern the
substring replacement is character-wise. -/
def slugify (s : String) : String :=
  String.mk ((strToLower s).data.map (fun c => if c = ' ' then '-' else c))

/-- A source group of the template structure (app.py lines 111-115). -/
structure SourceGroup where
  sid : String
  name : String
  articles : List (List (String × String))
deriving DecidableEq, Repr

/-- A bias group of the template structure (app.py lines 117-121). -/
structure BiasGroup where
  gid : String
  name : String
  sources : List SourceGroup
deriving DecidableEq, Repr

/-- The template-friendly structure built from the nested dictionary
(app.py lines 107-121): every bias and source group carries its display name
and the slug of that name. -/
def shapeIndex (records : List IndexRecord) : List BiasGroup :=
  (buildBiasGroups records).map
    (fun bg =>
      { gid := slugify bg.1
        name := bg.1
        sources := bg.2.map
          (fun sg => { sid := slugify sg.1, name := sg.1, articles := sg.2 }) })

/-! ## Lemmas about the graph shaping loop -/

/-- The edges a single row contributes, in order: the first-hop edge when the
relationship type is non-empty and the connected node is truthy, then the
second-hop edge when the second hop is bound. -/
def rowEdges (row : QueryRow) : List ShapedEdge :=
  (if row.r.relType != "" && nodeTruthy row.connected then [mkFirstHopEdge row] else []) ++
    (match row.second with
     | none => []
     | some (r2, other) => [mkSecondHopEdge row.connected r2 other])

theorem addFirstNode_edges (acc : GraphAcc) (row : QueryRow) :
    (addFirstNode acc row).edges = acc.edges := by
  unfold addFirstNode
  split <;> rfl

theorem addFirstNode_nodeIds_mem (acc : GraphAcc) (row : QueryRow)
    (ht : nodeTruthy row.connected = true) :
    row.connected.elementId ∈ (addFirstNode acc row).nodeIds := by
  unfold addFirstNode
  split
  · exact List.mem_cons_self _ _
  · next h =>
    simp only [ht, Bool.true_and, Bool.not_eq_true, Bool.not_eq_false] at h
    exact List.mem_of_elem_eq_true (by simpa using h)

theorem addFirstNode_nodeIds_mono (acc : GraphAcc) (row : QueryRow) (s : String)
    (h : s ∈ acc.nodeIds) : s ∈ (addFirstNode acc row).nodeIds := by
  unfold addFirstNode
  split
  · exact List.mem_cons_of_mem _ h
  · exact h

theorem addFirstEdge_spec (acc : GraphAcc) (row : QueryRow) :
    (addFirstEdge acc row).nodes = acc.nodes ∧
    (addFirstEdge acc row).nodeIds = acc.nodeIds ∧
    (addFirstEdge acc row).edges =
      acc.edges ++
        (if row.r.relType != "" && nodeTruthy row.connected then [mkFirstHopEdge row]
         else []) := by
  unfold addFirstEdge
  split <;> simp_all

theorem addSecondNode_edges (acc : GraphAcc) (row : QueryRow) :
    (addSecondNode acc row).edges = acc.edges := by
  unfold addSecondNode
  rcases row with ⟨r, c, s⟩
  cases s with
  | none => rfl
  | some p =>
    rcases p with ⟨r2, other⟩
    dsimp only
    split <;> rfl

theorem addSecondNode_nodeIds_mono (acc : GraphAcc) (row : QueryRow) (s : String)
    (h : s ∈ acc.nodeIds) : s ∈ (addSecondNode acc row).nodeIds := by
  unfold addSecondNode
  rcases row with ⟨r, c, sec⟩
  cases sec with
  | none => exact h
  | some p =>
    rcases p with ⟨r2, other⟩
    dsimp only
    split
    · exact List.mem_cons_of_mem _ h
    · exact h

theorem addSecondNode_nodeIds_mem (acc : GraphAcc) (row : QueryRow)
    (r2 : StoreRel) (other : StoreNode) (h : row.second = some (r2, other))
    (ht : nodeTruthy other = true) :
    other.elementId ∈ (addSecondNode acc row).nodeIds := by
  unfold addSecondNode
  rw [h]
  dsimp only
  split
  · exact List.mem_cons_self _ _
  · next hcont =>
    simp only [ht, Bool.true_and, Bool.not_eq_true, Bool.not_eq_false] at hcont
    exact List.mem_of_elem_eq_true (by simpa using hcont)

theorem addSecondEdge_spec (acc : GraphAcc) (row : QueryRow) :
    (addSecondEdge acc row).nodes = acc.nodes ∧
    (addSecondEdge acc row).nodeIds = acc.nodeIds ∧
    (addSecondEdge acc row).edges =
      acc.edges ++ (match row.second with
        | none => []
        | some (r2, other) => [mkSecondHopEdge row.connected r2 other]) := by
  unfold addSecondEdge
  rcases row with ⟨r, c, sec⟩
  cases sec with
  | none => simp
  | some p => rcases p with ⟨r2, other⟩; simp

theorem processRow_edges (acc : GraphAcc) (row : QueryRow) :
    (processRow acc row).edges = acc.edges ++ rowEdges row := by
  unfold processRow rowEdges
  rw [(addSecondEdge_spec _ _).2.2, (addSecondNode_edges _ _), (addFirstEdge_spec _ _).2.2,
    addFirstNode_edges, List.append_assoc]

theorem foldl_processRow_edges (rows : List QueryRow) :
    ∀ acc : GraphAcc, (rows.foldl processRow acc).edges = acc.edges ++ rows.flatMap rowEdges := by
  induction rows with
  | nil => intro acc; simp
  | cons row rest ih =>
    intro acc
    rw [List.foldl_cons, ih, processRow_edges, List.flatMap_cons, List.append_assoc]

/-- The `edges` output is exactly the concatenation of the per-row edge
contributions, in row order. -/
theorem shapeArticleGraph_edges (rows : List QueryRow) :
    (shapeArticleGraph rows).edges = rows.flatMap rowEdges := by
  unfold shapeArticleGraph
  rw [foldl_processRow_edges]
  rfl

/-- The node-side loop invariant of the shaping loop: the emitted node ids
are duplicate-free and `node_ids` is exactly the set of emitted node ids. -/
def NodeIdsInv (acc : GraphAcc) : Prop :=
  (acc.nodes.map (fun n => n.id)).Nodup ∧
  (∀ s : String, s ∈ acc.nodeIds ↔ s ∈ acc.nodes.map (fun n => n.id))

theorem nodeIdsInv_addNode (acc : GraphAcc) (inv : NodeIdsInv acc) (sn : ShapedNode)
    (es : List ShapedEdge) (hnot : ¬ acc.nodeIds.contains sn.id) :
    NodeIdsInv ⟨acc.nodes ++ [sn], es, sn.id :: acc.nodeIds⟩ := by
  obtain ⟨hnd, hiff⟩ := inv
  have hnotmem : sn.id ∉ acc.nodes.map (fun n => n.id) := by
    intro hmem
    exact hnot (List.elem_eq_true_of_mem ((hiff sn.id).mpr hmem))
  refine ⟨?_, ?_⟩
  · rw [List.map_append]
    refine List.Nodup.append hnd (by simp) ?_
    intro a ha hb
    simp only [List.map_cons, List.map_nil, List.mem_singleton] at hb
    subst hb
    exact hnotmem ha
  · intro s
    constructor
    · intro hs
      rcases List.mem_cons.mp hs with h | h
      · subst h; simp
      · simp only [List.map_append, List.mem_append]
        exact Or.inl ((hiff s).mp h)
    · intro hs
      simp only [List.map_append, List.mem_append, List.map_cons, List.map_nil,
        List.mem_singleton] at hs
      rcases hs with h | h
      · exact List.mem_cons_of_mem _ ((hiff s).mpr h)
      · subst h; exact List.mem_cons_self _ _

theorem nodeIdsInv_congr (acc acc₁ : GraphAcc) (hn : acc₁.nodes = acc.nodes)
    (hi : acc₁.nodeIds = acc.nodeIds) (inv : NodeIdsInv acc) : NodeIdsInv acc₁ := by
  unfold NodeIdsInv
  rw [hn, hi]
  exact inv

theorem nodeIdsInv_addFirstNode (acc : GraphAcc) (row : QueryRow) (inv : NodeIdsInv acc) :
    NodeIdsInv (addFirstNode acc row) := by
  unfold addFirstNode
  split
  · next h =>
    rw [Bool.and_eq_true] at h
    rcases h with ⟨-, h2⟩
    exact nodeIdsInv_addNode acc inv (shapeFirstHopNode row.connected) acc.edges
      (by simpa using h2)
  · exact inv

theorem nodeIdsInv_addSecondNode (acc : GraphAcc) (row : QueryRow) (inv : NodeIdsInv acc) :
    NodeIdsInv (addSecondNode acc row) := by
  unfold addSecondNode
  rcases row with ⟨r, c, sec⟩
  cases sec with
  | none => exact inv
  | some p =>
    rcases p with ⟨r2, other⟩
    dsimp only
    split
    · next h =>
      rw [Bool.and_eq_true] at h
      rcases h with ⟨-, h2⟩
      exact nodeIdsInv_addNode acc inv (shapeSecondHopNode other) acc.edges
        (by simpa using h2)
    · exact inv

theorem nodeIdsInv_processRow (acc : GraphAcc) (row : QueryRow) (inv : NodeIdsInv acc) :
    NodeIdsInv (processRow acc row) := by
  unfold processRow
  have i1 := nodeIdsInv_addFirstNode acc row inv
  have i2 : NodeIdsInv (addFirstEdge (addFirstNode acc row) row) :=
    nodeIdsInv_congr _ _ (addFirstEdge_spec _ _).1 (addFirstEdge_spec _ _).2.1 i1
  have i3 := nodeIdsInv_addSecondNode _ row i2
  exact nodeIdsInv_congr _ _ (addSecondEdge_spec _ _).1 (addSecondEdge_spec _ _).2.1 i3

theorem nodeIdsInv_foldl (rows : List QueryRow) :
    ∀ acc : GraphAcc, NodeIdsInv acc → NodeIdsInv (rows.foldl processRow acc) := by
  induction rows with
  | nil => intro acc h; exact h
  | cons row rest ih =>
    intro acc h
    exact ih _ (nodeIdsInv_processRow acc row h)

/-- The node-side invariant holds of the finished shaping loop. -/
theorem nodeIdsInv_shapeArticleGraph (rows : List QueryRow) :
    NodeIdsInv (shapeArticleGraph rows) := by
  refine nodeIdsInv_foldl rows _ ⟨?_, ?_⟩ <;> simp

theorem rowEdges_endpoints (row : QueryRow) (e : ShapedEdge) (h : e ∈ rowEdges row) :
    e.efrom = row.connected.elementId ∧
      (e.eto = row.connected.elementId ∨
        ∃ r2 other, row.second = some (r2, other) ∧ e.eto = other.elementId) := by
  unfold rowEdges at h
  rcases List.mem_append.mp h with h1 | h1
  · split at h1
    · rcases List.mem_singleton.mp h1 with rfl
      exact ⟨rfl, Or.inl rfl⟩
    · simp at h1
  · rcases row with ⟨r, c, sec⟩
    cases sec with
    | none => simp at h1
    | some p =>
      rcases p with ⟨r2, other⟩
      dsimp only at h1
      rcases List.mem_singleton.mp h1 with rfl
      exact ⟨rfl, Or.inr ⟨r2, other, rfl, rfl⟩⟩

/-- Referential integrity of the accumulator: every emitted edge endpoint is
in `node_ids`.  Unlike `NodeIdsInv` this is NOT preserved unconditionally:
a property-less (falsy) bound node is skipped by the node branches while the
second-hop edge is still emitted. -/
def EdgeRefInv (acc : GraphAcc) : Prop :=
  ∀ e ∈ acc.edges, e.efrom ∈ acc.nodeIds ∧ e.eto ∈ acc.nodeIds

/-- All nodes bound in a row are truthy: `connected` has at least one
property, and so does `other_connected` when the second hop is bound. -/
def rowNodesTruthy (row : QueryRow) : Bool :=
  nodeTruthy row.connected &&
    (match row.second with
     | none => true
     | some (_, other) => nodeTruthy other)

theorem rowNodesTruthy_elim (row : QueryRow) (h : rowNodesTruthy row = true) :
    nodeTruthy row.connected = true ∧
      ∀ r2 other, row.second = some (r2, other) → nodeTruthy other = true := by
  unfold rowNodesTruthy at h
  rw [Bool.and_eq_true] at h
  rcases h with ⟨h1, h2⟩
  refine ⟨h1, ?_⟩
  intro r2 other hsec
  rw [hsec] at h2
  simpa using h2

theorem nodeIds_mono_processRow (acc : GraphAcc) (row : QueryRow) (s : String)
    (h : s ∈ acc.nodeIds) : s ∈ (processRow acc row).nodeIds := by
  unfold processRow
  rw [(addSecondEdge_spec _ _).2.1]
  apply addSecondNode_nodeIds_mono
  rw [(addFirstEdge_spec _ _).2.1]
  exact addFirstNode_nodeIds_mono acc row s h

theorem edgeRefInv_processRow (acc : GraphAcc) (row : QueryRow)
    (hrow : rowNodesTruthy row = true) (inv : EdgeRefInv acc) :
    EdgeRefInv (processRow acc row) := by
  obtain ⟨htc, hto⟩ := rowNodesTruthy_elim row hrow
  have hcmem : row.connected.elementId ∈ (processRow acc row).nodeIds := by
    unfold processRow
    rw [(addSecondEdge_spec _ _).2.1]
    apply addSecondNode_nodeIds_mono
    rw [(addFirstEdge_spec _ _).2.1]
    exact addFirstNode_nodeIds_mem acc row htc
  have homem : ∀ r2 other, row.second = some (r2, other) →
      other.elementId ∈ (processRow acc row).nodeIds := by
    intro r2 other hsec
    unfold processRow
    rw [(addSecondEdge_spec _ _).2.1]
    exact addSecondNode_nodeIds_mem _ row r2 other hsec (hto r2 other hsec)
  intro e he
  rw [processRow_edges] at he
  rcases List.mem_append.mp he with h | h
  · obtain ⟨h1, h2⟩ := inv e h
    exact ⟨nodeIds_mono_processRow acc row _ h1, nodeIds_mono_processRow acc row _ h2⟩
  · obtain ⟨hfrom, hto2⟩ := rowEdges_endpoints row e h
    constructor
    · rw [hfrom]; exact hcmem
    · rcases hto2 with h2 | ⟨r2, other, hsec, h2⟩
      · rw [h2]; exact hcmem
      · rw [h2]; exact homem r2 other hsec

theorem edgeRefInv_foldl (rows : List QueryRow) :
    ∀ acc : GraphAcc, (∀ row ∈ rows, rowNodesTruthy row = true) → EdgeRefInv acc →
      EdgeRefInv (rows.foldl processRow acc) := by
  induction rows with
  | nil => intro acc _ h; exact h
  | cons row rest ih =>
    intro acc hall h
    refine ih _ (fun r hr => hall r (List.mem_cons_of_mem _ hr)) ?_
    exact edgeRefInv_processRow acc row (hall row (List.mem_cons_self _ _)) h

/-- Referential integrity of the finished loop under per-row truthiness. -/
theorem edgeRefInv_shapeArticleGraph (rows : List QueryRow)
    (hall : ∀ row ∈ rows, rowNodesTruthy row = true) :
    EdgeRefInv (shapeArticleGraph rows) := by
  refine edgeRefInv_foldl rows _ hall ?_
  intro e he
  simp at he

/-- The shaped nodes a single row can contribute: its first-hop node and,
when the second hop is bound, its second-hop node. -/
def rowNodeChoices (row : QueryRow) : List ShapedNode :=
  shapeFirstHopNode row.connected ::
    (match row.second with
     | none => []
     | some (_, other) => [shapeSecondHopNode other])

theorem addFirstNode_nodes_sub (acc : GraphAcc) (row : QueryRow) (sn : ShapedNode)
    (h : sn ∈ (addFirstNode acc row).nodes) :
    sn ∈ acc.nodes ∨ sn = shapeFirstHopNode row.connected := by
  unfold addFirstNode at h
  split at h
  · rcases List.mem_append.mp h with h1 | h1
    · exact Or.inl h1
    · exact Or.inr (List.mem_singleton.mp h1)
  · exact Or.inl h

theorem addSecondNode_nodes_sub (acc : GraphAcc) (row : QueryRow) (sn : ShapedNode)
    (h : sn ∈ (addSecondNode acc row).nodes) :
    sn ∈ acc.nodes ∨
      ∃ r2 other, row.second = some (r2, other) ∧ sn = shapeSecondHopNode other := by
  unfold addSecondNode at h
  rcases row with ⟨r, c, sec⟩
  cases sec with
  | none => exact Or.inl h
  | some p =>
    rcases p with ⟨r2, other⟩
    dsimp only at h
    split at h
    · rcases List.mem_append.mp h with h1 | h1
      · exact Or.inl h1
      · exact Or.inr ⟨r2, other, rfl, List.mem_singleton.mp h1⟩
    · exact Or.inl h

theorem processRow_nodes_sub (acc : GraphAcc) (row : QueryRow) (sn : ShapedNode)
    (h : sn ∈ (processRow acc row).nodes) :
    sn ∈ acc.nodes ∨ sn ∈ rowNodeChoices row := by
  unfold processRow at h
  rw [(addSecondEdge_spec _ _).1] at h
  rcases addSecondNode_nodes_sub _ row sn h with h1 | h1
  · rw [(addFirstEdge_spec _ _).1] at h1
    rcases addFirstNode_nodes_sub acc row sn h1 with h2 | h2
    · exact Or.inl h2
    · refine Or.inr ?_
      rw [h2]
      exact List.mem_cons_self _ _
  · rcases h1 with ⟨r2, other, hsec, rfl⟩
    refine Or.inr ?_
    unfold rowNodeChoices
    rw [hsec]
    exact List.mem_cons_of_mem _ (List.mem_singleton.mpr rfl)

theorem foldl_processRow_nodes_sub (rows : List QueryRow) :
    ∀ acc : GraphAcc, ∀ sn ∈ (rows.foldl processRow acc).nodes,
      sn ∈ acc.nodes ∨ ∃ row ∈ rows, sn ∈ rowNodeChoices row := by
  induction rows with
  | nil => intro acc sn h; exact Or.inl h
  | cons row rest ih =>
    intro acc sn h
    rcases ih (processRow acc row) sn h with h1 | h1
    · rcases processRow_nodes_sub acc row sn h1 with h2 | h2
      · exact Or.inl h2
      · exact Or.inr ⟨row, List.mem_cons_self _ _, h2⟩
    · rcases h1 with ⟨row', hrow', hsn⟩
      exact Or.inr ⟨row', List.mem_cons_of_mem _ hrow', hsn⟩

/-- Every emitted shaped node is the first-hop or second-hop shaping of some
result row. -/
theorem shapeArticleGraph_nodes_origin (rows : List QueryRow) (sn : ShapedNode)
    (h : sn ∈ (shapeArticleGraph rows).nodes) :
    ∃ row ∈ rows, sn ∈ rowNodeChoices row := by
  rcases foldl_processRow_nodes_sub rows _ sn h with h1 | h1
  · simp at h1
  · exact h1

theorem rowNodeChoices_id (row : QueryRow) (sn : ShapedNode)
    (h : sn ∈ rowNodeChoices row) :
    sn.id = row.connected.elementId ∨
      ∃ r2 other, row.second = some (r2, other) ∧ sn.id = other.elementId := by
  unfold rowNodeChoices at h
  rcases List.mem_cons.mp h with h1 | h1
  · subst h1; exact Or.inl rfl
  · rcases row with ⟨r, c, sec⟩
    cases sec with
    | none => simp at h1
    | some p =>
      rcases p with ⟨r2, other⟩
      dsimp only at h1
      rcases List.mem_singleton.mp h1 with rfl
      exact Or.inr ⟨r2, other, rfl, rfl⟩

theorem nodeById_elementId (store : Store) (id : String) (n : StoreNode)
    (h : nodeById store id = some n) : n.elementId = id := by
  unfold nodeById at h
  simpa using List.find?_some h

theorem secondHops_mem (store : Store) (anchor connected : StoreNode)
    (r2 : StoreRel) (other : StoreNode)
    (h : (r2, other) ∈ secondHops store anchor connected) :
    r2 ∈ store.rels ∧ other.elementId = r2.toId := by
  unfold secondHops at h
  rcases List.mem_filterMap.mp h with ⟨r2x, hr2x, hmap⟩
  rcases Option.map_eq_some'.mp hmap with ⟨o, ho, heq⟩
  have hpair : r2x = r2 ∧ o = other := by
    constructor
    · exact congrArg Prod.fst heq
    · exact congrArg Prod.snd heq
  rcases hpair with ⟨rfl, rfl⟩
  exact ⟨(List.mem_filter.mp hr2x).1, nodeById_elementId store _ _ ho⟩

/-- Every result row's bound nodes are targets of store relationships: the
first-hop node is the target of some relationship, and so is the second-hop
node when bound. -/
theorem runGraphQuery_target_ids (store : Store) (articleId : String) (row : QueryRow)
    (h : row ∈ runGraphQuery store articleId) :
    row.connected.elementId ∈ store.rels.map (fun r => r.toId) ∧
      ∀ r2 other, row.second = some (r2, other) →
        other.elementId ∈ store.rels.map (fun r => r.toId) := by
  unfold runGraphQuery at h
  rcases hfind : store.nodes.find?
      (fun a => a.elementId == articleId && a.labels.contains "Article") with _ | a
  · rw [hfind] at h; simp at h
  · rw [hfind] at h
    rcases List.mem_flatMap.mp h with ⟨r, hr, hrow⟩
    have hrels : r ∈ store.rels := (List.mem_filter.mp hr).1
    rcases hnb : nodeById store r.toId with _ | c
    · rw [hnb] at hrow; simp at hrow
    · rw [hnb] at hrow
      dsimp only at hrow
      have hcid : c.elementId = r.toId := nodeById_elementId store _ _ hnb
      rcases hsh : secondHops store a c with _ | ⟨p, ps⟩
      · rw [hsh] at hrow
        dsimp only at hrow
        rcases List.mem_singleton.mp hrow with rfl
        refine ⟨?_, ?_⟩
        · exact List.mem_map.mpr ⟨r, hrels, hcid.symm ▸ rfl⟩
        · intro r2 other hsec; simp at hsec
      · rw [hsh] at hrow
        dsimp only at hrow
        rcases List.mem_map.mp hrow with ⟨q, hq, rfl⟩
        refine ⟨?_, ?_⟩
        · exact List.mem_map.mpr ⟨r, hrels, hcid.symm ▸ rfl⟩
        · intro r2 other hsec
          simp only [Option.some.injEq] at hsec
          have hqmem : q ∈ secondHops store a c := by rw [hsh]; exact hq
          rcases q with ⟨qr, qo⟩
          have : qr = r2 ∧ qo = other := by
            constructor
            · exact congrArg Prod.fst hsec
            · exact congrArg Prod.snd hsec
          rcases this with ⟨rfl, rfl⟩
          obtain ⟨hq1, hq2⟩ := secondHops_mem store a c qr qo hqmem
          exact List.mem_map.mpr ⟨qr, hq1, hq2.symm ▸ rfl⟩

/-! ## Lemmas about the index grouping -/

theorem mem_assocSet {α : Type} (m : List (String × α)) (k : String) (v : α)
    (p : String × α) (h : p ∈ assocSet m k v) : p = (k, v) ∨ p ∈ m := by
  induction m with
  | nil =>
    unfold assocSet at h
    exact Or.inl (List.mem_singleton.mp h)
  | cons q rest ih =>
    rcases q with ⟨k₁, v₁⟩
    unfold assocSet at h
    split at h
    · rcases List.mem_cons.mp h with h1 | h1
      · exact Or.inl h1
      · exact Or.inr (List.mem_cons_of_mem _ h1)
    · rcases List.mem_cons.mp h with h1 | h1
      · exact Or.inr (h1 ▸ List.mem_cons_self _ _)
      · rcases ih h1 with h2 | h2
        · exact Or.inl h2
        · exact Or.inr (List.mem_cons_of_mem _ h2)

theorem assocFind_mem {α : Type} (m : List (String × α)) (k : String) (v : α)
    (h : assocFind m k = some v) : (k, v) ∈ m := by
  unfold assocFind at h
  rcases Option.map_eq_some'.mp h with ⟨p, hp, hv⟩
  have hmem := List.mem_of_find?_eq_some hp
  have hkey : p.1 = k := by simpa using List.find?_some hp
  rcases p with ⟨k₁, v₁⟩
  dsimp at hkey hv
  rw [hkey, hv] at hmem
  exact hmem

/-- Origin of the grouping keys: every bias key of the accumulator is the
resolved bias label of some record, and every source key of an inner
dictionary the resolved source label of some record. -/
def GroupsOrigin (records : List IndexRecord) (acc : BiasGroups) : Prop :=
  ∀ p ∈ acc,
    (∃ rec ∈ records, p.1 = pyOrStr rec.bias "Nepoznat bias") ∧
    ∀ q ∈ p.2, ∃ rec ∈ records, q.1 = pyOrStr rec.source "Nepoznat izvor"

theorem groupsOrigin_indexStep (records : List IndexRecord) (acc : BiasGroups)
    (rec : IndexRecord) (hrec : rec ∈ records)
    (hacc : GroupsOrigin records acc) :
    GroupsOrigin records (indexStep acc rec) := by
  intro p hp
  unfold indexStep at hp
  rcases mem_assocSet _ _ _ p hp with h1 | h1
  · subst h1
    refine ⟨⟨rec, hrec, rfl⟩, ?_⟩
    intro q hq
    rcases mem_assocSet _ _ _ q hq with h2 | h2
    · subst h2
      exact ⟨rec, hrec, rfl⟩
    · rcases hfind : assocFind acc (pyOrStr rec.bias "Nepoznat bias") with _ | inner
      · rw [hfind] at h2
        simp at h2
      · rw [hfind] at h2
        have hmem := assocFind_mem acc _ _ hfind
        exact (hacc _ hmem).2 q h2
  · exact hacc p h1

theorem groupsOrigin_foldl (records : List IndexRecord) :
    ∀ (recs : List IndexRecord) (acc : BiasGroups),
      (∀ r ∈ recs, r ∈ records) → GroupsOrigin records acc →
      GroupsOrigin records (recs.foldl indexStep acc) := by
  intro recs
  induction recs with
  | nil => intro acc _ hacc; exact hacc
  | cons rec rest ih =>
    intro acc hsub hacc
    refine ih _ (fun r hr => hsub r (List.mem_cons_of_mem _ hr)) ?_
    exact groupsOrigin_indexStep records acc rec (hsub rec (List.mem_cons_self _ _)) hacc

/-- Every bias key of the finished grouping is the resolved bias label of
some input record, and every source key the resolved source label of some
input record. -/
theorem buildBiasGroups_origin (records : List IndexRecord) :
    GroupsOrigin records (buildBiasGroups records) := by
  refine groupsOrigin_foldl records records [] (fun r hr => hr) ?_
  intro p hp
  simp at hp

/-! ## Concrete stores used by counterexamples and witnesses -/

/-- A store with one Article `a1` (title `T`) and one entity `e1`, connected
by a single relationship `a1 → e1`; no relationship points at `a1`. -/
def simpleStore : Store :=
  { nodes := [⟨"a1", ["Article"], [("title", "T")]⟩, ⟨"e1", ["Osoba"], [("name", "Ana")]⟩],
    rels := [⟨"POMINJE", "a1", "e1", []⟩] }

/-- A store in which the entity `e1` has a relationship back to the anchor
Article `a1` whose `article` property equals the anchor's title, so the
second hop of the graph query leads back to the anchor. -/
def backEdgeStore : Store :=
  { nodes := [⟨"a1", ["Article"], [("title", "T")]⟩, ⟨"e1", ["Osoba"], [("name", "Ana")]⟩],
    rels := [⟨"POMINJE", "a1", "e1", []⟩, ⟨"POMINJE", "e1", "a1", [("article", "T")]⟩] }

/-- A store whose second hop reaches a node `f1` that has a label but no
properties at all — a falsy node, skipped by the node branches while the
second-hop edge pointing at it is still emitted. -/
def secondHopStore : Store :=
  { nodes := [⟨"a1", ["Article"], [("title", "T")]⟩, ⟨"e1", ["Osoba"], [("name", "Ana")]⟩,
              ⟨"f1", ["Lokacija"], []⟩],
    rels := [⟨"POMINJE", "a1", "e1", []⟩, ⟨"KOD", "e1", "f1", [("article", "T")]⟩] }

/-- A store whose second hop reaches a node `f1` that has a label and one
property (so it is truthy and emitted), but neither a `name` nor a `title`. -/
def labeledNoNameStore : Store :=
  { nodes := [⟨"a1", ["Article"], [("title", "T")]⟩, ⟨"e1", ["Osoba"], [("name", "Ana")]⟩,
              ⟨"f1", ["Lokacija"], [("vrsta", "grad")]⟩],
    rels := [⟨"POMINJE", "a1", "e1", []⟩, ⟨"KOD", "e1", "f1", [("article", "T")]⟩] }

/-- The single row the graph query returns on `simpleStore` for `a1`. -/
def simpleRow : QueryRow :=
  ⟨⟨"POMINJE", "a1", "e1", []⟩, ⟨"e1", ["Osoba"], [("name", "Ana")]⟩, none⟩

/-- One index record whose bias is missing. -/
def missingBiasRecords : List IndexRecord :=
  [⟨none, some "Danas", [⟨"a1", ["Article"], [("title", "T")]⟩]⟩]

/-- The bias group the index shaping produces from `missingBiasRecords`. -/
def missingBiasGroup : BiasGroup :=
  { gid := "nepoznat-bias"
    name := "Nepoznat bias"
    sources := [{ sid := "danas"
                  name := "Danas"
                  articles := [[("id", "a1"), ("title", "T"), ("source", "Danas"),
                                ("bias", "Nepoznat bias"), ("url", "#"),
                                ("content", "<p>Sadržaj članka nije dostupan.</p>"),
                                ("date", ""), ("read_time", "")]] }] }

/-! ## The claims -/

/-- Claim C1, counterexample: on `backEdgeStore` the graph endpoint emits an
edge whose `to` endpoint is `a1`, the anchor Article's identifier — so the
anchor's identifier IS used as an edge endpoint, refuting the claim's final
clause. -/
theorem c1_counterexample :
    ∃ e ∈ (shapeArticleGraph (runGraphQuery backEdgeStore "a1")).edges, e.eto = "a1" := by
  decide

/-- Claim C1 (amended): for every result row whose first-hop relationship has
a non-empty type and whose connected node is truthy (bound with at least one
property — the driver truth-tests a Node by its property count), the emitted
first-hop Shaped Edge has both `from` and `to` equal to the connected node's
identifier (a self-loop edge); a row whose connected node has no properties
emits no first-hop edge.  The anchor Article's identifier is not used as an
edge endpoint PROVIDED no store relationship targets the anchor; when a
relationship leads back to the anchor, its identifier does appear as an
endpoint. -/
theorem c1_selfLoop_edges (store : Store) (articleId : String) :
    (∀ row ∈ runGraphQuery store articleId, row.r.relType ≠ "" →
        nodeTruthy row.connected = true →
        mkFirstHopEdge row ∈ (shapeArticleGraph (runGraphQuery store articleId)).edges ∧
        (mkFirstHopEdge row).efrom = row.connected.elementId ∧
        (mkFirstHopEdge row).eto = row.connected.elementId) ∧
    ((∀ r ∈ store.rels, r.toId ≠ articleId) →
        ∀ e ∈ (shapeArticleGraph (runGraphQuery store articleId)).edges,
          e.efrom ≠ articleId ∧ e.eto ≠ articleId) := by
  constructor
  · intro row hrow hty htr
    refine ⟨?_, rfl, rfl⟩
    rw [shapeArticleGraph_edges]
    refine List.mem_flatMap.mpr ⟨row, hrow, ?_⟩
    unfold rowEdges
    have hguard : (row.r.relType != "" && nodeTruthy row.connected) = true := by
      rw [htr, Bool.and_true]
      exact bne_iff_ne.mpr hty
    rw [hguard]
    exact List.mem_append.mpr (Or.inl (List.mem_singleton.mpr rfl))
  · intro htargets e he
    rw [shapeArticleGraph_edges] at he
    rcases List.mem_flatMap.mp he with ⟨row, hrow, hedge⟩
    obtain ⟨hconn, hsec⟩ := runGraphQuery_target_ids store articleId row hrow
    obtain ⟨hfrom, hto⟩ := rowEdges_endpoints row e hedge
    have hconnne : row.connected.elementId ≠ articleId := by
      rcases List.mem_map.mp hconn with ⟨r, hr, hid⟩
      rw [← hid]
      exact htargets r hr
    constructor
    · rw [hfrom]; exact hconnne
    · rcases hto with h | ⟨r2, other, hsome, h⟩
      · rw [h]; exact hconnne
      · rw [h]
        rcases List.mem_map.mp (hsec r2 other hsome) with ⟨r, hr, hid⟩
        rw [← hid]
        exact htargets r hr

/-- Claim C1, witness: on `simpleStore` the single row's first-hop edge is a
self-loop on `e1`, and neither endpoint is the anchor id `a1`. -/
theorem c1_witness :
    (mkFirstHopEdge simpleRow ∈ (shapeArticleGraph (runGraphQuery simpleStore "a1")).edges ∧
      (mkFirstHopEdge simpleRow).efrom = simpleRow.connected.elementId ∧
      (mkFirstHopEdge simpleRow).eto = simpleRow.connected.elementId) ∧
    ((mkFirstHopEdge simpleRow).efrom ≠ "a1" ∧ (mkFirstHopEdge simpleRow).eto ≠ "a1") :=
  ⟨(c1_selfLoop_edges simpleStore "a1").1 simpleRow (by decide) (by decide) (by decide),
   (c1_selfLoop_edges simpleStore "a1").2 (by decide) (mkFirstHopEdge simpleRow)
     ((c1_selfLoop_edges simpleStore "a1").1 simpleRow (by decide) (by decide) (by decide)).1⟩

/-- Claim C2, counterexample: on `backEdgeStore` the anchor Article `a1` IS
included in the output node list, because the second hop leads back to it —
refuting the claim's assertion that the anchor is excluded even in that
case. -/
theorem c2_counterexample :
    "a1" ∈ (shapeArticleGraph (runGraphQuery backEdgeStore "a1")).nodes.map (fun n => n.id) := by
  decide

/-- Claim C2 (amended): the anchor article node is never included in the
output `nodes` list PROVIDED no store relationship targets the anchor; a
second-hop edge (or a first-hop self-loop) leading back to the anchor puts
the anchor into the node list. -/
theorem c2_anchor_excluded (store : Store) (articleId : String)
    (htargets : ∀ r ∈ store.rels, r.toId ≠ articleId) :
    articleId ∉ (shapeArticleGraph (runGraphQuery store articleId)).nodes.map (fun n => n.id) := by
  intro hmem
  rcases List.mem_map.mp hmem with ⟨sn, hsn, hid⟩
  rcases shapeArticleGraph_nodes_origin _ sn hsn with ⟨row, hrow, hchoice⟩
  obtain ⟨hconn, hsec⟩ := runGraphQuery_target_ids store articleId row hrow
  rcases rowNodeChoices_id row sn hchoice with h | ⟨r2, other, hsome, h⟩
  · rcases List.mem_map.mp hconn with ⟨r, hr, hrid⟩
    exact htargets r hr (by rw [hrid, ← h, hid])
  · rcases List.mem_map.mp (hsec r2 other hsome) with ⟨r, hr, hrid⟩
    exact htargets r hr (by rw [hrid, ← h, hid])

/-- Claim C2, witness: on `simpleStore`, where no relationship targets the
anchor, the anchor id `a1` is absent from the output node list. -/
theorem c2_witness :
    "a1" ∉ (shapeArticleGraph (runGraphQuery simpleStore "a1")).nodes.map (fun n => n.id) :=
  c2_anchor_excluded simpleStore "a1" (by decide)

/-- Claim C3 (confirmed): for every result sequence, the emitted `nodes` list
has pairwise-distinct identifiers — deduplication by the shared `node_ids`
set holds across both hops. -/
theorem c3_nodes_deduplicated (rows : List QueryRow) :
    ((shapeArticleGraph rows).nodes.map (fun n => n.id)).Nodup :=
  (nodeIdsInv_shapeArticleGraph rows).1

/-- Claim C4, counterexample: on `labeledNoNameStore` the second-hop node
`f1` is truthy (one property) but lacks both `name` and `title`; its emitted
label is the bare identifier `"f1"`, not
`"<lowercased first label> <identifier>"` (`"lokacija f1"`) — refuting the
claim for second-hop nodes. -/
theorem c4_counterexample :
    ∃ sn ∈ (shapeArticleGraph (runGraphQuery labeledNoNameStore "a1")).nodes,
      getProp sn.properties "name" = none ∧ getProp sn.properties "title" = none ∧
      sn.label ≠ sn.group ++ " " ++ sn.id := by
  decide

/-- Claim C4 (amended): every emitted node comes from the first-hop or the
second-hop shaping of some result row; a first-hop node lacking both `name`
and `title` gets label `"<lowercased first label> <identifier>"`, a
second-hop node lacking both gets the bare `"<identifier>"`, and a node with
no labels at all gets group `"entity"` on either hop. -/
theorem c4_label_fallback (rows : List QueryRow) :
    (∀ sn ∈ (shapeArticleGraph rows).nodes, ∃ row ∈ rows,
        sn = shapeFirstHopNode row.connected ∨
        ∃ r2 other, row.second = some (r2, other) ∧ sn = shapeSecondHopNode other) ∧
    (∀ n : StoreNode, getProp n.props "name" = none → getProp n.props "title" = none →
        (shapeFirstHopNode n).label =
            (shapeFirstHopNode n).group ++ " " ++ (shapeFirstHopNode n).id ∧
        (shapeSecondHopNode n).label = (shapeSecondHopNode n).id) ∧
    (∀ n : StoreNode, n.labels = [] →
        (shapeFirstHopNode n).group = "entity" ∧ (shapeSecondHopNode n).group = "entity") := by
  refine ⟨?_, ?_, ?_⟩
  · intro sn hsn
    rcases shapeArticleGraph_nodes_origin _ sn hsn with ⟨row, hrow, hchoice⟩
    refine ⟨row, hrow, ?_⟩
    unfold rowNodeChoices at hchoice
    rcases List.mem_cons.mp hchoice with rfl | h1
    · exact Or.inl rfl
    · rcases row with ⟨r, c, sec⟩
      cases sec with
      | none => simp at h1
      | some p =>
        rcases p with ⟨r2, other⟩
        dsimp only at h1
        rcases List.mem_singleton.mp h1 with rfl
        exact Or.inr ⟨r2, other, rfl, rfl⟩
  · intro n hname htitle
    constructor
    · simp only [shapeFirstHopNode]
      rw [hname, htitle]
      rfl
    · simp only [shapeSecondHopNode]
      rw [hname, htitle]
      rfl
  · intro n hn
    constructor
    · simp [shapeFirstHopNode, hn]
      decide
    · simp [shapeSecondHopNode, hn]
      decide

/-- Claim C4, witness: the `f1` node of `labeledNoNameStore` is emitted via
the second hop, its label fallbacks follow the per-hop formats, and a node
with no labels gets group `"entity"` on both hops. -/
theorem c4_witness :
    (∃ row ∈ runGraphQuery labeledNoNameStore "a1",
        (⟨"f1", "f1", "lokacija", [("vrsta", "grad")]⟩ : ShapedNode) =
            shapeFirstHopNode row.connected ∨
        ∃ r2 other, row.second = some (r2, other) ∧
          (⟨"f1", "f1", "lokacija", [("vrsta", "grad")]⟩ : ShapedNode) =
            shapeSecondHopNode other) ∧
    ((shapeFirstHopNode ⟨"f1", ["Lokacija"], [("vrsta", "grad")]⟩).label =
        (shapeFirstHopNode ⟨"f1", ["Lokacija"], [("vrsta", "grad")]⟩).group ++ " " ++
          (shapeFirstHopNode ⟨"f1", ["Lokacija"], [("vrsta", "grad")]⟩).id ∧
      (shapeSecondHopNode ⟨"f1", ["Lokacija"], [("vrsta", "grad")]⟩).label =
        (shapeSecondHopNode ⟨"f1", ["Lokacija"], [("vrsta", "grad")]⟩).id) ∧
    ((shapeFirstHopNode ⟨"x1", [], []⟩).group = "entity" ∧
      (shapeSecondHopNode ⟨"x1", [], []⟩).group = "entity") :=
  ⟨(c4_label_fallback (runGraphQuery labeledNoNameStore "a1")).1
      ⟨"f1", "f1", "lokacija", [("vrsta", "grad")]⟩ (by decide),
   (c4_label_fallback (runGraphQuery labeledNoNameStore "a1")).2.1
      ⟨"f1", ["Lokacija"], [("vrsta", "grad")]⟩ (by decide) (by decide),
   (c4_label_fallback (runGraphQuery labeledNoNameStore "a1")).2.2 ⟨"x1", [], []⟩ rfl⟩

/-- Claim C5 (confirmed): for every non-empty article identifier that matches
no Article node in the store, the content endpoint returns 404 with body
`{"error": "Article not found"}` — in particular, never a server error. -/
theorem c5_content_not_found (store : Store) (articleId : String)
    (hid : articleId ≠ "")
    (hnone : ∀ a ∈ store.nodes,
      (a.labels.contains "Article" && matchesArticleId a articleId) = false) :
    getArticleContent (.ok store) articleId = ⟨404, .err "Article not found"⟩ := by
  have hb : (articleId == "") = false := beq_eq_false_iff_ne.mpr hid
  have hfilt : store.nodes.filter
      (fun a => a.labels.contains "Article" && matchesArticleId a articleId) = [] := by
    rw [List.filter_eq_nil_iff]
    intro a ha
    simp only [hnone a ha]
    decide
  unfold getArticleContent singleRecord
  rw [hb]
  dsimp only
  rw [hfilt]
  rfl

/-- Claim C5, witness: the id `zzz` matches nothing in `simpleStore` and the
content endpoint answers 404. -/
theorem c5_witness :
    getArticleContent (.ok simpleStore) "zzz" = ⟨404, .err "Article not found"⟩ :=
  c5_content_not_found simpleStore "zzz" (by decide) (by decide)

/-- Claim C6 (confirmed): on the empty (falsy) identifier both endpoints
answer 400 with body `{"error": "Invalid article ID"}`, and the answer is the
same for every store-connection outcome — the store is never consulted. -/
theorem c6_invalid_id (conn : StoreConn) :
    getArticleGraph conn "" = ⟨400, .err "Invalid article ID"⟩ ∧
    getArticleContent conn "" = ⟨400, .err "Invalid article ID"⟩ :=
  ⟨rfl, rfl⟩

/-- Claim C7 (confirmed): for every store error raised inside either endpoint
(on any non-empty identifier, so the query is actually attempted), the
response is exactly status 500 with body `{"error": "Database error
occurred"}` — a constant, so no underlying error detail reaches the client. -/
theorem c7_db_error_masked (e : String) (articleId : String) (hid : articleId ≠ "") :
    getArticleGraph (.error e) articleId = ⟨500, .err "Database error occurred"⟩ ∧
    getArticleContent (.error e) articleId = ⟨500, .err "Database error occurred"⟩ := by
  have hb : (articleId == "") = false := beq_eq_false_iff_ne.mpr hid
  constructor
  · unfold getArticleGraph
    rw [hb]
    rfl
  · unfold getArticleContent
    rw [hb]
    rfl

/-- Claim C7, witness: a concrete store error `boom` on id `a1` yields the
constant 500 body from both endpoints. -/
theorem c7_witness :
    getArticleGraph (.error "boom") "a1" = ⟨500, .err "Database error occurred"⟩ ∧
    getArticleContent (.error "boom") "a1" = ⟨500, .err "Database error occurred"⟩ :=
  c7_db_error_masked "boom" "a1" (by decide)

theorem length_flatMap_rowEdges (rows : List QueryRow) :
    (rows.flatMap rowEdges).length =
      (rows.filter (fun row => row.r.relType != "" && nodeTruthy row.connected)).length +
        (rows.filter (fun row => row.second.isSome)).length := by
  induction rows with
  | nil => simp
  | cons row rest ih =>
    rcases row with ⟨r, c, sec⟩
    by_cases hg : (r.relType != "" && nodeTruthy c) = true <;> cases sec <;>
      simp [rowEdges, hg, ih] <;> omega

/-- Claim C8 (confirmed): the edge list is not deduplicated — it is exactly
the concatenation of the per-row edge contributions, so its length counts
every row whose first-hop edge passes the `if rel.type and connected:` guard
plus every row with a bound second hop; a relationship occurring in several
rows is emitted once per row. -/
theorem c8_edges_not_deduplicated (rows : List QueryRow) :
    (shapeArticleGraph rows).edges = rows.flatMap rowEdges ∧
    (shapeArticleGraph rows).edges.length =
      (rows.filter (fun row => row.r.relType != "" && nodeTruthy row.connected)).length +
        (rows.filter (fun row => row.second.isSome)).length := by
  refine ⟨shapeArticleGraph_edges rows, ?_⟩
  rw [shapeArticleGraph_edges]
  exact length_flatMap_rowEdges rows

/-- Claim C9, counterexample: an index record with a missing bias yields the
group display label `"Nepoznat bias"` — the Serbian sentinel — not the label
`"unknown bias"` the claim states. -/
theorem c9_counterexample :
    (shapeIndex missingBiasRecords).map (fun g => g.name) = ["Nepoznat bias"] ∧
      ("Nepoznat bias" : String) ≠ "unknown bias" := by
  decide

/-- Claim C9 (amended): a group whose bias or source is missing gets the
sentinel labels `"Nepoznat bias"` / `"Nepoznat izvor"` (every group's display
name is the Python `or`-resolution of some record's bias resp. source), and
every bias and source group carries the slug of its display name (lower-cased,
spaces replaced with hyphens). -/
theorem c9_group_labels (records : List IndexRecord) (g : BiasGroup)
    (hg : g ∈ shapeIndex records) :
    g.gid = slugify g.name ∧
    (∃ rec ∈ records, g.name = pyOrStr rec.bias "Nepoznat bias") ∧
    ∀ s ∈ g.sources, s.sid = slugify s.name ∧
      ∃ rec ∈ records, s.name = pyOrStr rec.source "Nepoznat izvor" := by
  unfold shapeIndex at hg
  rcases List.mem_map.mp hg with ⟨bg, hbg, rfl⟩
  obtain ⟨⟨rec, hrec, hname⟩, hsources⟩ := buildBiasGroups_origin records bg hbg
  refine ⟨rfl, ⟨rec, hrec, hname⟩, ?_⟩
  intro s hs
  rcases List.mem_map.mp hs with ⟨sg, hsg, rfl⟩
  exact ⟨rfl, hsources sg hsg⟩

/-- Claim C9, witness: the concrete group produced from a record with a
missing bias has name `"Nepoznat bias"`, slug `"nepoznat-bias"`, and its
source group has name `"Danas"`, slug `"danas"`. -/
theorem c9_witness :
    missingBiasGroup.gid = slugify missingBiasGroup.name ∧
    (∃ rec ∈ missingBiasRecords, missingBiasGroup.name = pyOrStr rec.bias "Nepoznat bias") ∧
    ∀ s ∈ missingBiasGroup.sources, s.sid = slugify s.name ∧
      ∃ rec ∈ missingBiasRecords, s.name = pyOrStr rec.source "Nepoznat izvor" :=
  c9_group_labels missingBiasRecords missingBiasGroup (by decide)

/-- Claim C10, counterexample: on `secondHopStore` the second-hop target
`f1` has no properties, so the code skips it as a node (falsy truth test,
app.py line 177) yet still emits the second-hop edge `e1 → f1` (app.py line
186, `r2` is truthy via its `article` property) — an emitted edge endpoint
absent from the emitted `nodes` list, refuting referential integrity. -/
theorem c10_counterexample :
    (⟨"e1", "f1", "KOD", [("article", "T")]⟩ : ShapedEdge) ∈
        (shapeArticleGraph (runGraphQuery secondHopStore "a1")).edges ∧
    "f1" ∉ (shapeArticleGraph (runGraphQuery secondHopStore "a1")).nodes.map (fun n => n.id) := by
  decide

/-- Claim C10 (amended): referential integrity holds PROVIDED every node
bound in a result row carries at least one property (is truthy, as real
entity nodes are) — then every identifier in an emitted edge's `from` or
`to` field is the id of some entry of the emitted `nodes` list.  A
property-less bound node is skipped by the node branches while the
second-hop edge referencing it is still emitted. -/
theorem c10_edge_endpoints_are_nodes (rows : List QueryRow)
    (htruthy : ∀ row ∈ rows, rowNodesTruthy row = true) (e : ShapedEdge)
    (he : e ∈ (shapeArticleGraph rows).edges) :
    e.efrom ∈ (shapeArticleGraph rows).nodes.map (fun n => n.id) ∧
    e.eto ∈ (shapeArticleGraph rows).nodes.map (fun n => n.id) := by
  obtain ⟨-, hiff⟩ := nodeIdsInv_shapeArticleGraph rows
  obtain ⟨h1, h2⟩ := edgeRefInv_shapeArticleGraph rows htruthy e he
  exact ⟨(hiff e.efrom).mp h1, (hiff e.eto).mp h2⟩

/-- Claim C10, witness: on `backEdgeStore` every bound node has a property,
and the self-loop edge on `e1` has both endpoints among the emitted node
ids. -/
theorem c10_witness :
    (⟨"e1", "e1", "POMINJE", []⟩ : ShapedEdge).efrom ∈
        (shapeArticleGraph (runGraphQuery backEdgeStore "a1")).nodes.map (fun n => n.id) ∧
    (⟨"e1", "e1", "POMINJE", []⟩ : ShapedEdge).eto ∈
        (shapeArticleGraph (runGraphQuery backEdgeStore "a1")).nodes.map (fun n => n.id) :=
  c10_edge_endpoints_are_nodes (runGraphQuery backEdgeStore "a1") (by decide)
    ⟨"e1", "e1", "POMINJE", []⟩ (by decide)

end Relata
